import Mathlib

/-!
Verification of the hierarchical medical knowledge-store and retrieval engine:
the partitioned vector-store manager (`medical_vector_store.py`), the result
cache (`cache_service.py`) and the dynamic weighted re-ranking pipeline
(`enhanced_rag_service.py`).

Python dictionaries are modelled as insertion-ordered association lists
(Python dicts preserve insertion order; assigning an existing key keeps its
position, assigning a new key appends).  Enum-valued fields are modelled by
their `.value` strings, since the source only ever compares `.value` strings.
Rational numbers stand for Python floats: every claim about scores and
weights is read over exact arithmetic.
-/

/-- Lookup in an insertion-ordered association list (Python `dict[k]` /
`k in dict`). -/
def alGet {V : Type} (key : String) : List (String × V) → Option V
  | [] => none
  | p :: rest => if p.1 = key then some p.2 else alGet key rest

/-- Assignment `dict[k] = v`: replace in place if the key is present,
otherwise append at the end (Python dict insertion-order semantics). -/
def alSet {V : Type} (key : String) (v : V) : List (String × V) → List (String × V)
  | [] => [(key, v)]
  | p :: rest => if p.1 = key then (key, v) :: rest else p :: alSet key v rest

/-- Deletion `del dict[k]`. -/
def alRemove {V : Type} (key : String) (l : List (String × V)) : List (String × V) :=
  l.filter (fun p => p.1 ≠ key)

/-! ## Partition store and router (`medical_vector_store.py`) -/

/-- Model of `VectorStoreMetadata` (lines 23-31): enum fields are carried as their
`.value` strings, `disease_category` is optional. -/
structure VectorStoreMetadata where
  department : String
  document_type : String
  disease_category : Option String
  created_at : String
  document_count : Nat
  last_updated : String
deriving DecidableEq

/-- Model of `_get_store_key` (lines 48-56): join the `.value` strings with `_`,
appending the disease category only when present. -/
def get_store_key (department document_type : String)
    (disease_category : Option String) : String :=
  match disease_category with
  | none => department ++ "_" ++ document_type
  | some c => department ++ "_" ++ document_type ++ "_" ++ c

/-- State of a `MedicalVectorStoreManager`: the metadata cache (dict keyed by
store key, populated from directory names on startup), the lazily loaded
in-memory FAISS stores, the on-disk stores, and whether an embeddings
provider was supplied.  A FAISS store is represented by its list of document
texts; similarity search over it is an oracle parameter of `search_documents`. -/
structure MVSManager where
  metadata_cache : List (String × VectorStoreMetadata)
  vector_stores : List (String × List String)
  disk_stores : List (String × List String)
  has_embeddings : Bool

/-- Value-level content of `_load_vector_store` (lines 93-118): an in-memory
store wins; otherwise the store is loaded from disk, which requires an
embeddings provider; a missing path (or failed load) yields `none`. -/
def store_contents (m : MVSManager) (key : String) : Option (List String) :=
  match alGet key m.vector_stores with
  | some docs => some docs
  | none =>
    match alGet key m.disk_stores with
    | none => none
    | some docs => if m.has_embeddings then some docs else none

/-- First fallback pass of `search_documents` (lines 210-225): for every
metadata entry whose department and document type match, append its key once;
when a disease category was requested, an entry whose category also matches
is appended a second time (line 224 fires and then line 225 fires again). -/
def fallback_pass1 (cache : List (String × VectorStoreMetadata))
    (dept dtype : String) (dcat : Option String) : List String :=
  cache.flatMap (fun p =>
    if p.2.department = dept ∧ p.2.document_type = dtype then
      match dcat with
      | none => [p.1]
      | some w => if p.2.disease_category = some w then [p.1, p.1] else [p.1]
    else [])

/-- Second fallback pass (lines 227-235): if the first pass produced nothing
and a disease category was specified, aggregate every department+type match
ignoring the category. -/
def fallback_candidates (cache : List (String × VectorStoreMetadata))
    (dept dtype : String) (dcat : Option String) : List String :=
  let c1 := fallback_pass1 cache dept dtype dcat
  if c1.isEmpty ∧ dcat ≠ none then
    cache.flatMap (fun p =>
      if p.2.department = dept ∧ p.2.document_type = dtype then [p.1] else [])
  else c1

/-- Target-store resolution of `search_documents` (lines 200-265): with both
department and document type given, use the exact key when it is a key of the
metadata cache, else fall back; otherwise filter all partitions by the
non-empty filter fields. -/
def target_stores (cache : List (String × VectorStoreMetadata))
    (dept dtype dcat : Option String) : List String :=
  match dept, dtype with
  | some d, some t =>
    let key := get_store_key d t dcat
    if (alGet key cache).isSome then [key]
    else fallback_candidates cache d t dcat
  | _, _ =>
    cache.flatMap (fun p =>
      if (dept = none ∨ some p.2.department = dept) ∧
         (dtype = none ∨ some p.2.document_type = dtype) ∧
         (dcat = none ∨ p.2.disease_category = dcat) then [p.1] else [])

/-- One iteration of the search loop (lines 268-293): skip a store that does
not load, run `similarity_search_with_score` (the oracle `sim`, a function of
the store's documents, the query and `k`) and keep results with
`score >= score_threshold` (line 280). -/
def per_store_results (m : MVSManager)
    (sim : List String → String → Nat → List (String × ℚ))
    (key query : String) (k : Nat) (score_threshold : ℚ) : List (String × ℚ) :=
  match store_contents m key with
  | none => []
  | some docs => (sim docs query k).filter (fun r => score_threshold ≤ r.2)

/-- Ascending comparison on raw scores, used for the final sort (line 297). -/
def scoreLe (a b : String × ℚ) : Prop := a.2 ≤ b.2

instance : DecidableRel scoreLe := fun a b => inferInstanceAs (Decidable (a.2 ≤ b.2))

instance : IsTotal (String × ℚ) scoreLe := ⟨fun a b => le_total a.2 b.2⟩

instance : IsTrans (String × ℚ) scoreLe := ⟨fun _ _ _ h h' => le_trans h h'⟩

/-- Model of `search_documents` (lines 190-298): resolve target stores, concatenate the
per-store filtered results, sort ascending by raw score (FAISS distance,
smaller is better) and return the first `k`.  A result is a (document text,
raw score) pair. -/
def search_documents (m : MVSManager)
    (sim : List String → String → Nat → List (String × ℚ))
    (query : String) (k : Nat) (dept dtype dcat : Option String)
    (score_threshold : ℚ) : List (String × ℚ) :=
  let targets := target_stores m.metadata_cache dept dtype dcat
  let results := targets.flatMap
    (fun sk => per_store_results m sim sk query k score_threshold)
  (List.insertionSort scoreLe results).take k

/-- Model of `add_documents` (lines 120-188): refuse empty input or a missing
embeddings provider; load or create the store for the derived key, append the
documents, persist to disk, and bump `document_count` by the number of added
documents (creating fresh metadata with `document_count = len(documents)` on
first add).  Returns the success flag and the new manager state. -/
def add_documents (m : MVSManager) (documents : List String)
    (department document_type : String) (disease_category : Option String)
    (now : String) : Bool × MVSManager :=
  if documents.isEmpty then (false, m)
  else if m.has_embeddings = false then (false, m)
  else
    let store_key := get_store_key department document_type disease_category
    let newdocs :=
      match store_contents m store_key with
      | none => documents
      | some docs => docs ++ documents
    let stores := alSet store_key newdocs m.vector_stores
    let disk := alSet store_key newdocs m.disk_stores
    let metadata :=
      match alGet store_key m.metadata_cache with
      | some md =>
        VectorStoreMetadata.mk md.department md.document_type
          md.disease_category md.created_at
          (md.document_count + documents.length) now
      | none =>
        VectorStoreMetadata.mk department document_type disease_category
          now documents.length now
    (true, MVSManager.mk (alSet store_key metadata m.metadata_cache)
      stores disk m.has_embeddings)

/-! ## Result cache (`cache_service.py`, in-memory implementation) -/

/-- Model of `CacheEntry` (lines 25-39). -/
structure CacheEntry (V : Type) where
  data : V
  timestamp : ℚ
  ttl : Nat
  access_count : Nat
deriving DecidableEq

/-- Model of `CacheEntry.is_expired` (lines 33-35): `time.time() - self.timestamp > self.ttl`. -/
def is_expired {V : Type} (e : CacheEntry V) (now : ℚ) : Bool :=
  decide ((e.ttl : ℚ) < now - e.timestamp)

/-- State of the in-memory cache implementation: the entry dict, the capacity
bound, the fallback TTL, and the content hash used by `_generate_key`
(`hashlib.md5` hex digest of the canonical serialization, modelled as an
arbitrary function on the already-serialized key data). -/
structure MemCache (V : Type) where
  cache : List (String × CacheEntry V)
  max_size : Nat
  default_ttl : Nat
  hash : String → String

/-- Model of `_generate_key` (lines 90-99): namespace prefix, a colon, then the content
hash of the serialized key data. -/
def generate_key (hash : String → String) (prefix_ key_data : String) : String :=
  prefix_ ++ ":" ++ hash key_data

/-- Model of `ttl_config` (lines 49-55): the static per-namespace TTL table. -/
def ttl_config : String → Option Nat
  | "query_result" => some 1800
  | "entity_extraction" => some 3600
  | "intent_recognition" => some 1800
  | "kg_expansion" => some 7200
  | "medical_association" => some 3600
  | _ => none

/-- Model of `_cleanup_expired` (lines 101-111): drop every expired entry. -/
def cleanup_expired {V : Type} (now : ℚ) (l : List (String × CacheEntry V)) :
    List (String × CacheEntry V) :=
  l.filter (fun p => ! is_expired p.2 now)

/-- The sort key of `_evict_lru` (line 119): lexicographic on
`(access_count, timestamp)`. -/
def entryLe {V : Type} (a b : String × CacheEntry V) : Prop :=
  a.2.access_count < b.2.access_count ∨
    (a.2.access_count = b.2.access_count ∧ a.2.timestamp ≤ b.2.timestamp)

instance {V : Type} : DecidableRel (entryLe (V := V)) := fun a b =>
  inferInstanceAs (Decidable (_ ∨ _))

instance {V : Type} : IsTotal (String × CacheEntry V) entryLe where
  total a b := by
    unfold entryLe
    rcases lt_trichotomy a.2.access_count b.2.access_count with h | h | h
    · exact Or.inl (Or.inl h)
    · rcases le_total a.2.timestamp b.2.timestamp with h' | h'
      · exact Or.inl (Or.inr ⟨h, h'⟩)
      · exact Or.inr (Or.inr ⟨h.symm, h'⟩)
    · exact Or.inr (Or.inl h)

instance {V : Type} : IsTrans (String × CacheEntry V) entryLe where
  trans a b c hab hbc := by
    unfold entryLe at *
    rcases hab with h | ⟨h1, h2⟩
    · rcases hbc with h' | ⟨h1', _⟩
      · exact Or.inl (h.trans h')
      · exact Or.inl (h1' ▸ h)
    · rcases hbc with h' | ⟨h1', h2'⟩
      · exact Or.inl (h1 ▸ h')
      · exact Or.inr ⟨h1.trans h1', h2.trans h2'⟩

/-- Strict version of the eviction sort key: `a` sorts strictly before `b`. -/
def entryLt {V : Type} (a b : String × CacheEntry V) : Prop :=
  a.2.access_count < b.2.access_count ∨
    (a.2.access_count = b.2.access_count ∧ a.2.timestamp < b.2.timestamp)

/-- Model of `_evict_lru` (lines 113-128): when the dict has reached `max_size`, sort
the items by `(access_count, timestamp)` ascending (Python's stable sort,
modelled by stable insertion sort) and delete the first
`max(1, len(items) // 10)` keys. -/
def evict_lru {V : Type} (c : MemCache V) : MemCache V :=
  if c.max_size ≤ c.cache.length then
    let sorted := List.insertionSort entryLe c.cache
    let evict_count := max 1 (c.cache.length / 10)
    let victims := (sorted.take evict_count).map Prod.fst
    MemCache.mk (c.cache.filter (fun p => p.1 ∉ victims))
      c.max_size c.default_ttl c.hash
  else c

/-- Model of `_memory_get` (lines 131-146): on a fresh hit bump the access counter and
return the data; on an expired hit delete the entry and miss; otherwise miss.
Returns the value together with the mutated cache state. -/
def memory_get {V : Type} (c : MemCache V) (now : ℚ)
    (cache_type key_data : String) : Option V × MemCache V :=
  let key := generate_key c.hash cache_type key_data
  match alGet key c.cache with
  | none => (none, c)
  | some entry =>
    if is_expired entry now then
      (none, MemCache.mk (alRemove key c.cache) c.max_size c.default_ttl c.hash)
    else
      (some entry.data,
        MemCache.mk
          (alSet key
            (CacheEntry.mk entry.data entry.timestamp entry.ttl
              (entry.access_count + 1)) c.cache)
          c.max_size c.default_ttl c.hash)

/-- Model of `_memory_set` (lines 148-167): every 100th size triggers an expiry sweep,
then the LRU eviction check runs, then the entry is written with
`ttl = ttl or ttl_config.get(cache_type, default_ttl)` (an explicit non-zero
`ttl` argument wins; `None` or `0` falls back to the namespace default). -/
def memory_set {V : Type} (c : MemCache V) (now : ℚ)
    (cache_type key_data : String) (value : V) (ttlArg : Option Nat) :
    MemCache V :=
  let c1 :=
    if c.cache.length % 100 = 0 then
      MemCache.mk (cleanup_expired now c.cache) c.max_size c.default_ttl c.hash
    else c
  let c2 := evict_lru c1
  let key := generate_key c2.hash cache_type key_data
  let ttl :=
    match ttlArg with
    | some t => if t = 0 then (ttl_config cache_type).getD c2.default_ttl else t
    | none => (ttl_config cache_type).getD c2.default_ttl
  MemCache.mk (alSet key (CacheEntry.mk value now ttl 0) c2.cache)
    c2.max_size c2.default_ttl c2.hash

/-! ## Retrieval pipeline (`enhanced_rag_service.py`) -/

/-- The cache write of `medical_retrieve` (line 804): the final result is
stored under the `query_result` namespace with an explicit `ttl=300`
("缓存5分钟"). -/
def cache_final_result {V : Type} (c : MemCache V) (now : ℚ)
    (cache_key : String) (final_result : V) : MemCache V :=
  memory_set c now "query_result" cache_key final_result (some 300)

/-- Model of `calculate_dynamic_weights` (lines 596-639), over exact rationals.  The
four weights start at (0.4, 0.3, 0.2, 0.1) and are shifted by the quality,
intent-confidence, KG-enhancement and association-count rules, then divided by
their total.  `intent_confidence = none` models `intent_result = None`. -/
def calculate_dynamic_weights (quality_score : ℚ) (intent_confidence : Option ℚ)
    (kg_enhancement_used : Bool) (kg_suggestions_count : Nat)
    (medical_associations_count : Nat) : ℚ × ℚ × ℚ × ℚ :=
  let w : ℚ × ℚ × ℚ × ℚ := (4/10, 3/10, 2/10, 1/10)
  let w :=
    if quality_score > 8/10 then
      (w.1 + 1/10, w.2.1 - 5/100, w.2.2.1 - 5/100, w.2.2.2)
    else if quality_score < 5/10 then
      (w.1 - 1/10, w.2.1 + 15/100, w.2.2.1 - 5/100, w.2.2.2)
    else w
  let w :=
    match intent_confidence with
    | some conf =>
      if conf > 8/10 then (w.1 - 1/10, w.2.1 + 1/10, w.2.2.1, w.2.2.2) else w
    | none => w
  let w :=
    if kg_enhancement_used ∧ 0 < kg_suggestions_count then
      (w.1 - 5/100, w.2.1 - 5/100, w.2.2.1 + 1/10, w.2.2.2)
    else w
  let w :=
    if 3 < medical_associations_count then
      (w.1 - 5/100, w.2.1, w.2.2.1, w.2.2.2 + 5/100)
    else w
  let total := w.1 + w.2.1 + w.2.2.1 + w.2.2.2
  (w.1 / total, w.2.1 / total, w.2.2.1 / total, w.2.2.2 / total)

/-- The `(citations, context_text, metadata)` triple returned by
`medical_retrieve`, with the metadata reduced to its optional `"error"`
field. -/
structure RetrieveOutput where
  citations : List String
  context_text : String
  error : Option String
deriving DecidableEq

/-- Model of `DashScopeEmbeddings.embed_query` (lines 86-100): a non-OK API response
raises `Exception(f"DashScope API error: ...")`, and the handler re-raises. -/
def embed_query (api_response : Except String (List ℚ)) :
    Except String (List ℚ) :=
  match api_response with
  | Except.ok emb => Except.ok emb
  | Except.error s => Except.error ("DashScope API error: " ++ s)

/-- Model of FAISS `similarity_search_with_score`
(`medical_vector_store.py` line 275) over a loaded store: the call embeds
the query through the provider (`embed_query`, which re-raises API
failures), so an embedding failure propagates out of the similarity search
as a raised error; on success the index oracle scores the store's documents
against the query embedding. -/
def similarity_search_with_score
    (api_response : Except String (List ℚ))
    (index : List String → List ℚ → Nat → List (String × ℚ))
    (docs : List String) (k : Nat) : Except String (List (String × ℚ)) :=
  match embed_query api_response with
  | Except.error e => Except.error e
  | Except.ok emb => Except.ok (index docs emb k)

/-- Model of the search-loop body (`medical_vector_store.py` lines 268-293)
with a failable similarity oracle: the `except Exception` at lines 292-293
catches any failure raised by the similarity search — including an
embedding-provider failure — logs it and moves on to the next store, so a
failing store contributes no results and nothing is re-raised. -/
def per_store_results_exc (m : MVSManager)
    (simE : List String → String → Nat → Except String (List (String × ℚ)))
    (key query : String) (k : Nat) (score_threshold : ℚ) :
    List (String × ℚ) :=
  match store_contents m key with
  | none => []
  | some docs =>
    match simE docs query k with
    | Except.error _ => []
    | Except.ok rs => rs.filter (fun r => score_threshold ≤ r.2)

/-- Model of `search_documents` over the failable similarity oracle:
because every per-store failure is caught inside the loop (lines 292-293),
the search itself never raises and returns the sorted, truncated merge of
the surviving stores' results. -/
def search_documents_exc (m : MVSManager)
    (simE : List String → String → Nat → Except String (List (String × ℚ)))
    (query : String) (k : Nat) (dept dtype dcat : Option String)
    (score_threshold : ℚ) : List (String × ℚ) :=
  let targets := target_stores m.metadata_cache dept dtype dcat
  let results := targets.flatMap
    (fun sk => per_store_results_exc m simE sk query k score_threshold)
  (List.insertionSort scoreLe results).take k

/-- Model of `search_medical_documents` (`enhanced_index_service.py` lines
140-195): the engine search runs with the default `score_threshold=0.0`
(`MedicalSearchEngine.search` forwards no threshold), then line 168 filters
the results against the caller's threshold.  Because `search_documents`
catches store-level failures itself, an embedding failure never reaches the
`except` at lines 193-195, and the call returns `ok=True` with the
(possibly empty) result list. -/
def search_medical_documents (m : MVSManager)
    (simE : List String → String → Nat → Except String (List (String × ℚ)))
    (query : String) (k : Nat) (dept dtype dcat : Option String)
    (score_threshold : ℚ) : Bool × List (String × ℚ) :=
  (true,
    (search_documents_exc m simE query k dept dtype dcat 0).filter
      (fun r => score_threshold ≤ r.2))

/-- Skeleton of `medical_retrieve` (`enhanced_rag_service.py` lines 196-211,
571-593, 666, 746-806): a cache hit is returned unchanged; otherwise the
search runs — an embedding failure inside it was already caught at
`medical_vector_store.py` lines 292-293, so the search returns normally and
nothing ever reaches the blanket `except Exception` at lines 808-810.  A
not-ok search result yields the lines 571-593 error triple; otherwise the
citations come from the result list (modelled as the document texts, the
per-result snippet formatting abstracted as `fmt`), the context text falls
back to `"(no medical documents found)"` when there are no snippets
(line 784), and the metadata carries no error key. -/
def medical_retrieve (cached_result : Option RetrieveOutput)
    (m : MVSManager)
    (simE : List String → String → Nat → Except String (List (String × ℚ)))
    (fmt : String × ℚ → String)
    (query : String) (k : Nat) (dept dtype dcat : Option String)
    (score_threshold : ℚ) : RetrieveOutput :=
  match cached_result with
  | some r => r
  | none =>
    let sr := search_medical_documents m simE query k dept dtype dcat
      score_threshold
    if sr.1 = false then
      RetrieveOutput.mk [] "" (some "搜索失败")
    else
      let snippets := sr.2.map fmt
      RetrieveOutput.mk (sr.2.map Prod.fst)
        (if snippets.isEmpty then "(no medical documents found)"
         else String.intercalate "\n\n" snippets)
        none

/-! ## Concrete fixtures used by witnesses and counterexamples -/

/-- A manager holding exactly the sibling partitions `A_X_Y` and `A_X_Z`. -/
def managerAXYZ : MVSManager :=
  MVSManager.mk
    [("A_X_Y", VectorStoreMetadata.mk "A" "X" (some "Y") "" 1 ""),
     ("A_X_Z", VectorStoreMetadata.mk "A" "X" (some "Z") "" 1 "")]
    [("A_X_Y", ["dy"]), ("A_X_Z", ["dz"])]
    []
    true

/-- A similarity oracle scoring `dy` at distance 1 and everything else at 2. -/
def simYZ : List String → String → Nat → List (String × ℚ) :=
  fun docs _ _ => docs.map (fun d => (d, if d = "dy" then 1 else 2))

/-- A manager with a single partition `A_X` holding two documents. -/
def managerAX : MVSManager :=
  MVSManager.mk
    [("A_X", VectorStoreMetadata.mk "A" "X" none "" 2 "")]
    [("A_X", ["d1", "d2"])]
    []
    true

/-- A similarity oracle scoring `d1` at distance 0 and everything else at 2. -/
def simNearFar : List String → String → Nat → List (String × ℚ) :=
  fun docs _ _ => docs.map (fun d => (d, if d = "d1" then 0 else 2))

/-- An index oracle scoring every document at distance 1 (used behind the
failable similarity search). -/
def indexOne : List String → List ℚ → Nat → List (String × ℚ) :=
  fun docs _ _ => docs.map (fun d => (d, 1))

/-- A manager whose metadata cache was populated from a directory named
`dirA` while the sidecar metadata carries `(A, X, W)`, so the recomputed
exact key `A_X_W` differs from the dictionary key. -/
def managerDirA : MVSManager :=
  MVSManager.mk
    [("dirA", VectorStoreMetadata.mk "A" "X" (some "W") "" 1 "")]
    [("dirA", ["doc"])]
    []
    true

/-- A similarity oracle scoring every document at distance 0. -/
def simZero : List String → String → Nat → List (String × ℚ) :=
  fun docs _ _ => docs.map (fun d => (d, 0))

/-- A manager with no partitions at all. -/
def managerEmpty : MVSManager := MVSManager.mk [] [] [] true

/-- An empty cache with the constructor defaults
(`max_size=1000, default_ttl=3600`); the content hash is the identity. -/
def cacheEmpty : MemCache Nat := MemCache.mk [] 1000 3600 id

/-- A cache at capacity 3 whose key `K` has been accessed five times while
`a` and `b` were never accessed. -/
def cacheFull3 : MemCache Nat :=
  MemCache.mk
    [("a", CacheEntry.mk 0 0 100 0),
     ("b", CacheEntry.mk 1 0 100 0),
     ("K", CacheEntry.mk 2 0 100 5)]
    3 3600 id

/-! ## Helper lemmas -/

theorem alGet_alSet {V : Type} (key : String) (v : V) (l : List (String × V)) :
    alGet key (alSet key v l) = some v := by
  induction l with
  | nil => simp [alGet, alSet]
  | cons p rest ih =>
    by_cases h : p.1 = key
    · simp [alGet, alSet, h]
    · simp [alGet, alSet, h, ih]

/-! ## Claim theorems -/

/-- Claim C4: for every query-quality score, intent confidence, KG-enhancement
flag, KG-suggestion count and association count, the dynamic weight vector
produced by `calculate_dynamic_weights` sums exactly to 1 over exact rational
arithmetic and every component is non-negative, so the weighted score is a
convex combination of the four signals. -/
theorem dynamic_weights_convex (q : ℚ) (ic : Option ℚ) (kg : Bool)
    (ks mc : Nat) :
    ((calculate_dynamic_weights q ic kg ks mc).1 +
     (calculate_dynamic_weights q ic kg ks mc).2.1 +
     (calculate_dynamic_weights q ic kg ks mc).2.2.1 +
     (calculate_dynamic_weights q ic kg ks mc).2.2.2 = 1) ∧
    0 ≤ (calculate_dynamic_weights q ic kg ks mc).1 ∧
    0 ≤ (calculate_dynamic_weights q ic kg ks mc).2.1 ∧
    0 ≤ (calculate_dynamic_weights q ic kg ks mc).2.2.1 ∧
    0 ≤ (calculate_dynamic_weights q ic kg ks mc).2.2.2 := by
  cases ic <;> simp only [calculate_dynamic_weights] <;> split_ifs <;>
    simp <;> norm_num

theorem evict_lru_hash {V : Type} (c : MemCache V) :
    (evict_lru c).hash = c.hash := by
  unfold evict_lru; split <;> rfl

theorem evict_lru_default_ttl {V : Type} (c : MemCache V) :
    (evict_lru c).default_ttl = c.default_ttl := by
  unfold evict_lru; split <;> rfl

/-- Whatever the sweep and eviction steps did, `_memory_set` ends by writing
the entry `(value, now, ttl, 0)` under the generated key, so looking that key
up right after the write returns exactly this entry. -/
theorem alGet_memory_set {V : Type} (c : MemCache V) (now : ℚ)
    (ct kd : String) (v : V) (t : Nat) (ht : ¬ t = 0) :
    alGet (generate_key c.hash ct kd)
        (memory_set c now ct kd v (some t)).cache
      = some (CacheEntry.mk v now t 0) := by
  unfold memory_set
  split <;> simp only [evict_lru_hash, if_neg ht] <;> exact alGet_alSet _ _ _

/-- Claim C5 (amended): the cache-miss path of `medical_retrieve` stores the
final result under the `query_result` namespace with the explicit `ttl=300`
passed at the call site (line 804), not with the namespace default. -/
theorem query_result_cached_with_ttl_300 {V : Type} (c : MemCache V)
    (now : ℚ) (cache_key : String) (final_result : V) :
    alGet (generate_key c.hash "query_result" cache_key)
        (cache_final_result c now cache_key final_result).cache
      = some (CacheEntry.mk final_result now 300 0) := by
  exact alGet_memory_set c now "query_result" cache_key final_result 300
    (by decide)

/-- Claim C5 counterexample: on the empty cache the stored entry carries
`ttl = 300`, which differs from the `query_result` namespace default of
1800 seconds recorded in `ttl_config`. -/
theorem query_result_ttl_is_not_namespace_default :
    alGet "query_result:k" (cache_final_result cacheEmpty 0 "k" 42).cache
      = some (CacheEntry.mk 42 0 300 0) ∧
    ttl_config "query_result" = some 1800 ∧
    (CacheEntry.mk 42 (0 : ℚ) 300 0).ttl ≠ 1800 := by
  refine ⟨?_, rfl, by decide⟩
  have h := alGet_memory_set cacheEmpty 0 "query_result" "k" 42 300 (by decide)
  exact h

/-- Claim C6 (amended): an embedding-provider failure during a cache-miss
retrieval is caught by the per-store `except Exception` handler
(`medical_vector_store.py` lines 292-293) and never reaches the blanket
handler of `medical_retrieve`: each failing store contributes no results,
and when the embedding fails for every store the caller receives the normal
triple `([], "(no medical documents found)", metadata)` with no error key —
the failure is silently swallowed into a normal empty result, never
propagated to the caller as a typed error. -/
theorem embedding_failure_swallowed (m : MVSManager) (e : String)
    (index : List String → List ℚ → Nat → List (String × ℚ))
    (fmt : String × ℚ → String) (query : String) (k : Nat)
    (dept dtype dcat : Option String) (thr : ℚ) :
    medical_retrieve none m
      (fun docs _ kk =>
        similarity_search_with_score (Except.error e) index docs kk)
      fmt query k dept dtype dcat thr
      = RetrieveOutput.mk [] "(no medical documents found)" none := by
  have hper : ∀ sk, per_store_results_exc m
      (fun docs _ kk =>
        similarity_search_with_score (Except.error e) index docs kk)
      sk query k 0 = [] := by
    intro sk
    unfold per_store_results_exc
    cases store_contents m sk <;> rfl
  have hsearch : search_documents_exc m
      (fun docs _ kk =>
        similarity_search_with_score (Except.error e) index docs kk)
      query k dept dtype dcat 0 = [] := by
    simp only [search_documents_exc]
    have hmerge : (target_stores m.metadata_cache dept dtype dcat).flatMap
        (fun sk => per_store_results_exc m
          (fun docs _ kk =>
            similarity_search_with_score (Except.error e) index docs kk)
          sk query k 0) = [] := by
      induction target_stores m.metadata_cache dept dtype dcat with
      | nil => rfl
      | cons a l ih => rw [List.flatMap_cons, hper a, ih]; rfl
    rw [hmerge]
    simp
  simp only [medical_retrieve, search_medical_documents, hsearch]
  rfl

/-- Claim C6 counterexample: on the concrete manager whose partition `A_X`
holds two documents, an embedding failure ("connection timeout") during a
cache-miss retrieval yields the normal empty triple with no error key: the
caller receives an ordinary empty result — indistinguishable from an empty
corpus — rather than a raised typed error or any error record. -/
theorem embedding_failure_swallowed_counterexample :
    store_contents managerAX "A_X" = some ["d1", "d2"] ∧
    medical_retrieve none managerAX
      (fun docs _ kk =>
        similarity_search_with_score (Except.error "connection timeout")
          indexOne docs kk)
      Prod.fst "q" 5 (some "A") (some "X") none 0
      = RetrieveOutput.mk [] "(no medical documents found)" none ∧
    (medical_retrieve none managerAX
      (fun docs _ kk =>
        similarity_search_with_score (Except.error "connection timeout")
          indexOne docs kk)
      Prod.fst "q" 5 (some "A") (some "X") none 0).error = none := by
  refine ⟨rfl, ?_, ?_⟩ <;> rfl

/-- Claim C2: for every query, `k` and filter, the router's result list is the
concatenation of the per-partition result lists of all searched partitions,
globally re-sorted ascending by raw score and truncated to at most `k`
elements: it equals the first `k` elements of the stably sorted merged list,
it is itself sorted ascending, the sorted merged list is a permutation of the
plain concatenation, at most `k` elements are returned, and every returned
result comes from one of the searched partitions. -/
theorem router_global_topk (m : MVSManager)
    (sim : List String → String → Nat → List (String × ℚ))
    (q : String) (k : Nat) (dept dtype dcat : Option String) (thr : ℚ) :
    search_documents m sim q k dept dtype dcat thr
      = (List.insertionSort scoreLe
          ((target_stores m.metadata_cache dept dtype dcat).flatMap
            (fun sk => per_store_results m sim sk q k thr))).take k ∧
    List.Sorted scoreLe (search_documents m sim q k dept dtype dcat thr) ∧
    (List.insertionSort scoreLe
        ((target_stores m.metadata_cache dept dtype dcat).flatMap
          (fun sk => per_store_results m sim sk q k thr))).Perm
      ((target_stores m.metadata_cache dept dtype dcat).flatMap
          (fun sk => per_store_results m sim sk q k thr)) ∧
    (search_documents m sim q k dept dtype dcat thr).length ≤ k ∧
    ∀ r ∈ search_documents m sim q k dept dtype dcat thr,
      ∃ sk ∈ target_stores m.metadata_cache dept dtype dcat,
        r ∈ per_store_results m sim sk q k thr := by
  refine ⟨rfl, ?_, List.perm_insertionSort _ _, List.length_take_le _ _, ?_⟩
  · exact List.Pairwise.sublist (List.take_sublist _ _)
      (List.sorted_insertionSort scoreLe _)
  · intro r hr
    have h1 : r ∈ List.insertionSort scoreLe
        ((target_stores m.metadata_cache dept dtype dcat).flatMap
          (fun sk => per_store_results m sim sk q k thr)) :=
      List.mem_of_mem_take hr
    have h2 := (List.mem_insertionSort scoreLe).mp h1
    exact List.mem_flatMap.mp h2

/-- Claim C2 witness: instantiating the merge theorem on the two-partition
fixture locates the concrete hit `("dy", 1)` in one of the searched
partitions. -/
theorem router_global_topk_witness :
    ∃ sk ∈ target_stores managerAXYZ.metadata_cache none none none,
      ("dy", (1 : ℚ)) ∈ per_store_results managerAXYZ simYZ sk "q" 5 0 :=
  (router_global_topk managerAXYZ simYZ "q" 5 none none none 0).2.2.2.2
    ("dy", 1) (by decide)

/-- Claim C3 (amended): the partition search keeps exactly the results whose
raw score is AT LEAST the threshold (`if score >= score_threshold`,
line 280): every returned pair satisfies `thr ≤ rawScore`, the reverse of the
claimed distance-based `rawScore <= t` semantics. -/
theorem search_results_at_least_threshold (m : MVSManager)
    (sim : List String → String → Nat → List (String × ℚ))
    (q : String) (k : Nat) (dept dtype dcat : Option String) (thr : ℚ) :
    ∀ r ∈ search_documents m sim q k dept dtype dcat thr, thr ≤ r.2 := by
  intro r hr
  have h1 : r ∈ List.insertionSort scoreLe
      ((target_stores m.metadata_cache dept dtype dcat).flatMap
        (fun sk => per_store_results m sim sk q k thr)) :=
    List.mem_of_mem_take hr
  obtain ⟨sk, _, hr2⟩ := List.mem_flatMap.mp
    ((List.mem_insertionSort scoreLe).mp h1)
  unfold per_store_results at hr2
  rcases hcontents : store_contents m sk with _ | docs <;>
    rw [hcontents] at hr2
  · simp at hr2
  · exact of_decide_eq_true (List.mem_filter.mp hr2).2

/-- Claim C3 witness: the amended bound applied to the concrete result
`("d2", 2)` of a threshold-1 search. -/
theorem search_results_at_least_threshold_witness :
    (1 : ℚ) ≤ (("d2", (2 : ℚ))).2 :=
  search_results_at_least_threshold managerAX simNearFar "q" 5
    (some "A") (some "X") none 1 ("d2", 2) (by decide)

/-- Claim C3 counterexample: with threshold `t = 1`, the search over a
partition scoring `d1` at distance 0 and `d2` at distance 2 returns exactly
`[("d2", 2)]`: the far result with `rawScore = 2 > t` is returned and the
near result with `rawScore = 0 <= t` is dropped, refuting
`rawScore <= t` semantics. -/
theorem search_results_exceed_threshold_counterexample :
    search_documents managerAX simNearFar "q" 5 (some "A") (some "X") none 1
      = [("d2", 2)] ∧
    ¬ (∀ r ∈ search_documents managerAX simNearFar "q" 5
          (some "A") (some "X") none 1, r.2 ≤ 1) := by
  exact ⟨by decide, by decide⟩

/-- Claim C7: starting from a state with no partition for the derived key,
adding the same non-empty chunk list twice succeeds both times and leaves the
partition metadata with `document_count = 2 * len(chunks)`: duplicates are
appended, not deduplicated. -/
theorem add_documents_twice_doubles_count (m : MVSManager)
    (docs : List String) (d t : String) (dc : Option String) (n1 n2 : String)
    (hne : docs ≠ [])
    (hemb : m.has_embeddings = true)
    (hmeta : alGet (get_store_key d t dc) m.metadata_cache = none)
    (hmem : alGet (get_store_key d t dc) m.vector_stores = none)
    (hdisk : alGet (get_store_key d t dc) m.disk_stores = none) :
    (add_documents m docs d t dc n1).1 = true ∧
    (add_documents (add_documents m docs d t dc n1).2 docs d t dc n2).1
      = true ∧
    ∃ md, alGet (get_store_key d t dc)
        (add_documents
          (add_documents m docs d t dc n1).2 docs d t dc n2).2.metadata_cache
        = some md ∧
      md.document_count = 2 * docs.length := by
  have hempty : docs.isEmpty = false := by
    cases docs with
    | nil => exact absurd rfl hne
    | cons a l => rfl
  have hsc : store_contents m (get_store_key d t dc) = none := by
    unfold store_contents
    rw [hmem, hdisk]
  simp only [add_documents, store_contents, hempty, hemb, hmeta, hmem, hdisk,
    hsc, alGet_alSet, Bool.false_eq_true, Bool.true_eq_false, if_false,
    ite_false, ite_true]
  refine ⟨trivial, trivial, ⟨_, rfl, ?_⟩⟩
  simp [two_mul]

/-- Claim C7 witness: adding `["c1", "c2"]` twice to the empty manager leaves
`document_count = 4`. -/
theorem add_documents_twice_doubles_count_witness :
    (add_documents managerEmpty ["c1", "c2"] "A" "X" none "t1").1 = true ∧
    (add_documents (add_documents managerEmpty ["c1", "c2"] "A" "X" none
        "t1").2 ["c1", "c2"] "A" "X" none "t2").1 = true ∧
    ∃ md, alGet (get_store_key "A" "X" none)
        (add_documents (add_documents managerEmpty ["c1", "c2"] "A" "X" none
          "t1").2 ["c1", "c2"] "A" "X" none "t2").2.metadata_cache
        = some md ∧
      md.document_count = 2 * (["c1", "c2"] : List String).length :=
  add_documents_twice_doubles_count managerEmpty ["c1", "c2"] "A" "X" none
    "t1" "t2" (by simp) rfl rfl rfl rfl

/-- A fresh cache hit: when the generated key maps to an unexpired entry,
`_memory_get` returns its data and bumps its access counter in place. -/
theorem memory_get_hit {V : Type} (c : MemCache V) (now : ℚ)
    (ct kd : String) (e : CacheEntry V)
    (hget : alGet (generate_key c.hash ct kd) c.cache = some e)
    (hexp : is_expired e now = false) :
    memory_get c now ct kd =
      (some e.data,
        MemCache.mk
          (alSet (generate_key c.hash ct kd)
            (CacheEntry.mk e.data e.timestamp e.ttl (e.access_count + 1))
            c.cache)
          c.max_size c.default_ttl c.hash) := by
  simp only [memory_get, hget, hexp]
  rfl

/-- An expired cache hit: `_memory_get` deletes the entry and misses. -/
theorem memory_get_expired {V : Type} (c : MemCache V) (now : ℚ)
    (ct kd : String) (e : CacheEntry V)
    (hget : alGet (generate_key c.hash ct kd) c.cache = some e)
    (hexp : is_expired e now = true) :
    memory_get c now ct kd =
      (none,
        MemCache.mk (alRemove (generate_key c.hash ct kd) c.cache)
          c.max_size c.default_ttl c.hash) := by
  simp only [memory_get, hget, hexp]
  rfl

/-- Claim C8: in a cache below its capacity bound, `set(ns, k, v, ttl=60)`
followed by `get(ns, k)` at the same instant returns `v`, and a second `get`
more than 60 seconds after the write (with no intervening `set`) misses:
`is_expired` compares the elapsed time against the entry's own TTL. -/
theorem cache_round_trip {V : Type} (c : MemCache V) (t0 : ℚ)
    (ns kd : String) (v : V) (t2 : ℚ)
    (hcap : c.cache.length < c.max_size)
    (h61 : 60 < t2 - t0) :
    (memory_get (memory_set c t0 ns kd v (some 60)) t0 ns kd).1 = some v ∧
    (memory_get (memory_get (memory_set c t0 ns kd v (some 60)) t0 ns kd).2
        t2 ns kd).1 = none := by
  have hhash : (memory_set c t0 ns kd v (some 60)).hash = c.hash := by
    unfold memory_set
    split <;> simp [evict_lru_hash]
  have hentry : alGet
      (generate_key (memory_set c t0 ns kd v (some 60)).hash ns kd)
      (memory_set c t0 ns kd v (some 60)).cache
      = some (CacheEntry.mk v t0 60 0) := by
    rw [hhash]
    exact alGet_memory_set c t0 ns kd v 60 (by decide)
  have hfresh : is_expired (CacheEntry.mk v t0 60 0) t0 = false := by
    simp [is_expired]
  have h1 := memory_get_hit (memory_set c t0 ns kd v (some 60)) t0 ns kd
    (CacheEntry.mk v t0 60 0) hentry hfresh
  constructor
  · rw [h1]
  · rw [h1]
    have hexp : is_expired (CacheEntry.mk v t0 60 1) t2 = true := by
      simp only [is_expired, decide_eq_true_iff]
      push_cast
      linarith
    rw [memory_get_expired _ t2 ns kd (CacheEntry.mk v t0 60 1) ?_ hexp]
    rw [hhash]
    exact alGet_alSet _ _ _

/-- Claim C8 witness: a concrete round trip on the empty cache - a hit at the
write instant and a miss 61 seconds later. -/
theorem cache_round_trip_witness :
    (memory_get (memory_set cacheEmpty 0 "query_result" "k" 7 (some 60)) 0
        "query_result" "k").1 = some 7 ∧
    (memory_get (memory_get (memory_set cacheEmpty 0 "query_result" "k" 7
        (some 60)) 0 "query_result" "k").2 61 "query_result" "k").1 = none :=
  cache_round_trip cacheEmpty 0 "query_result" "k" 7 61 (by decide)
    (by norm_num)

/-- Claim C1: for a manager holding exactly the sibling partitions with keys
`k1, k2` (same department `d` and document type `t`, disease categories `y`
and `z`), a search with `department=d, document_type=t` and a disease
category `w` for which no partition exists resolves to exactly `[k1, k2]` and
returns the merged (sorted, truncated) results of searching both; with a
positive `k` and at least one surviving per-partition result the merged
result is non-empty, and the search is a total function (store failures are
skipped, never raised). -/
theorem router_fallback_merges_sibling_partitions
    (m : MVSManager) (sim : List String → String → Nat → List (String × ℚ))
    (q : String) (k : Nat) (thr : ℚ)
    (d t y z w k1 k2 : String) (m1 m2 : VectorStoreMetadata)
    (hcache : m.metadata_cache = [(k1, m1), (k2, m2)])
    (hm1 : m1.department = d ∧ m1.document_type = t ∧
      m1.disease_category = some y)
    (hm2 : m2.department = d ∧ m2.document_type = t ∧
      m2.disease_category = some z)
    (hyw : y ≠ w) (hzw : z ≠ w)
    (hk1 : get_store_key d t (some w) ≠ k1)
    (hk2 : get_store_key d t (some w) ≠ k2) :
    search_documents m sim q k (some d) (some t) (some w) thr
      = (List.insertionSort scoreLe
          (per_store_results m sim k1 q k thr ++
           per_store_results m sim k2 q k thr)).take k ∧
    (0 < k → per_store_results m sim k1 q k thr ≠ [] →
      search_documents m sim q k (some d) (some t) (some w) thr ≠ []) := by
  obtain ⟨h1d, h1t, h1c⟩ := hm1
  obtain ⟨h2d, h2t, h2c⟩ := hm2
  have htargets : target_stores m.metadata_cache (some d) (some t) (some w)
      = [k1, k2] := by
    simp [target_stores, hcache, alGet, fallback_candidates, fallback_pass1,
      h1d, h1t, h1c, h2d, h2t, h2c, hyw, hzw, Ne.symm hk1, Ne.symm hk2]
  have hsearch : search_documents m sim q k (some d) (some t) (some w) thr
      = (List.insertionSort scoreLe
          (per_store_results m sim k1 q k thr ++
           per_store_results m sim k2 q k thr)).take k := by
    simp [search_documents, htargets]
  refine ⟨hsearch, fun hk hne => ?_⟩
  rw [hsearch]
  have hlen : 0 < (List.insertionSort scoreLe
      (per_store_results m sim k1 q k thr ++
       per_store_results m sim k2 q k thr)).length := by
    rw [List.length_insertionSort, List.length_append]
    have := List.length_pos.mpr hne
    omega
  have : 0 < ((List.insertionSort scoreLe
      (per_store_results m sim k1 q k thr ++
       per_store_results m sim k2 q k thr)).take k).length := by
    rw [List.length_take]
    omega
  exact List.length_pos.mp this

/-- Claim C1 witness: on the concrete fixture with partitions `A_X_Y`,
`A_X_Z` and requested category `W`, the search merges both partitions'
results and is non-empty. -/
theorem router_fallback_merges_sibling_partitions_witness :
    search_documents managerAXYZ simYZ "q" 5 (some "A") (some "X")
        (some "W") 0
      = (List.insertionSort scoreLe
          (per_store_results managerAXYZ simYZ "A_X_Y" "q" 5 0 ++
           per_store_results managerAXYZ simYZ "A_X_Z" "q" 5 0)).take 5 ∧
    search_documents managerAXYZ simYZ "q" 5 (some "A") (some "X")
        (some "W") 0 ≠ [] := by
  have h := router_fallback_merges_sibling_partitions managerAXYZ simYZ
    "q" 5 0 "A" "X" "Y" "Z" "W" "A_X_Y" "A_X_Z"
    (VectorStoreMetadata.mk "A" "X" (some "Y") "" 1 "")
    (VectorStoreMetadata.mk "A" "X" (some "Z") "" 1 "")
    rfl ⟨rfl, rfl, rfl⟩ ⟨rfl, rfl, rfl⟩ (by decide) (by decide)
    (by decide) (by decide)
  exact ⟨h.1, h.2 (by decide) (by decide)⟩

theorem flatMap_sublist {α β : Type} {s t : List α} (h : s.Sublist t)
    (f : α → List β) : (s.flatMap f).Sublist (t.flatMap f) := by
  induction h with
  | slnil => simp
  | cons a h ih =>
    rw [List.flatMap_cons]
    exact ih.trans (List.sublist_append_right _ _)
  | cons₂ a h ih =>
    rw [List.flatMap_cons, List.flatMap_cons]
    exact ih.append_left _

/-- Claim C10 (implicit): when department and document type are both given,
no partition exists under the recomputed exact key, and a disease category is
requested, the fallback pass adds every department+type match regardless of
its category, and a partition whose stored category equals the requested one
is appended twice — it is searched twice, and each of its hits occurs at
least twice in the merged pre-truncation result list. -/
theorem fallback_searches_matching_category_twice
    (m : MVSManager) (sim : List String → String → Nat → List (String × ℚ))
    (q : String) (k : Nat) (thr : ℚ)
    (d t w sk : String) (meta : VectorStoreMetadata)
    (hexact : alGet (get_store_key d t (some w)) m.metadata_cache = none)
    (hmem : (sk, meta) ∈ m.metadata_cache)
    (hd : meta.department = d) (ht : meta.document_type = t)
    (hc : meta.disease_category = some w) :
    (∀ p ∈ m.metadata_cache, p.2.department = d → p.2.document_type = t →
      p.1 ∈ target_stores m.metadata_cache (some d) (some t) (some w)) ∧
    2 ≤ (target_stores m.metadata_cache (some d) (some t) (some w)).count
      sk ∧
    ∀ r ∈ per_store_results m sim sk q k thr,
      2 ≤ ((target_stores m.metadata_cache (some d) (some t)
            (some w)).flatMap
          (fun s => per_store_results m sim s q k thr)).count r := by
  have hmem1 : sk ∈ fallback_pass1 m.metadata_cache d t (some w) := by
    refine List.mem_flatMap.mpr ⟨(sk, meta), hmem, ?_⟩
    simp [hd, ht, hc]
  have hie : (fallback_pass1 m.metadata_cache d t (some w)).isEmpty
      = false := by
    rw [Bool.eq_false_iff]
    intro hcon
    rw [List.isEmpty_iff.mp hcon] at hmem1
    exact (List.not_mem_nil sk) hmem1
  have htarget : target_stores m.metadata_cache (some d) (some t) (some w)
      = fallback_pass1 m.metadata_cache d t (some w) := by
    simp [target_stores, fallback_candidates, hexact, hie]
  obtain ⟨l1, l2, hsplit⟩ := List.append_of_mem hmem
  have hsub : [sk, sk].Sublist (fallback_pass1 m.metadata_cache d t
      (some w)) := by
    rw [hsplit]
    unfold fallback_pass1
    rw [List.flatMap_append, List.flatMap_cons]
    refine List.Sublist.trans
      (List.Sublist.trans ?_ (List.sublist_append_left _ _))
      (List.sublist_append_right _ _)
    simp [hd, ht, hc]
  refine ⟨?_, ?_, ?_⟩
  · intro p hp hpd hpt
    rw [htarget]
    refine List.mem_flatMap.mpr ⟨p, hp, ?_⟩
    simp only [hpd, hpt, and_self, if_true]
    split <;> simp
  · rw [htarget]
    have := hsub.count_le sk
    simpa using this
  · intro r hr
    rw [htarget]
    have hsub2 := flatMap_sublist hsub
      (fun s => per_store_results m sim s q k thr)
    have hcount := hsub2.count_le r
    have hone : 0 < (per_store_results m sim sk q k thr).count r :=
      List.count_pos_iff.mpr hr
    have h2 : ([sk, sk].flatMap
        (fun s => per_store_results m sim s q k thr)).count r
        = (per_store_results m sim sk q k thr).count r +
          (per_store_results m sim sk q k thr).count r := by
      simp [List.count_append]
    omega

/-- Claim C10 witness: on the fixture whose dictionary key `dirA` differs
from the recomputed exact key `A_X_W`, the concrete hit `("doc", 0)` of the
doubly-searched partition occurs at least twice in the merged list. -/
theorem fallback_searches_matching_category_twice_witness :
    2 ≤ ((target_stores managerDirA.metadata_cache (some "A") (some "X")
          (some "W")).flatMap
        (fun s => per_store_results managerDirA simZero s "q" 5 0)).count
      ("doc", (0 : ℚ)) :=
  (fallback_searches_matching_category_twice managerDirA simZero "q" 5 0
    "A" "X" "W" "dirA" (VectorStoreMetadata.mk "A" "X" (some "W") "" 1 "")
    (by decide) (by decide) rfl rfl rfl).2.2
    ("doc", 0) (by decide)

theorem entryLe_asymm {V : Type} {a b : String × CacheEntry V}
    (h : entryLe a b) : ¬ entryLt b a := by
  unfold entryLe at h
  unfold entryLt
  rintro (hlt | ⟨heq, hts⟩)
  · rcases h with h | ⟨h1, _⟩
    · omega
    · omega
  · rcases h with h | ⟨h1, h2⟩
    · omega
    · exact absurd h2 (not_le.mpr hts)

/-- A key whose entry has a strictly larger access count than at least `n`
other entries cannot be among the first `n` keys of the eviction sort. -/
theorem hot_key_not_in_victims {V : Type}
    (l : List (String × CacheEntry V)) (kKey : String)
    (kEntry : CacheEntry V) (n : Nat)
    (hnd : (l.map Prod.fst).Nodup)
    (hmem : (kKey, kEntry) ∈ l)
    (hcount : n ≤ l.countP
      (fun p => decide (p.2.access_count < kEntry.access_count))) :
    kKey ∉ ((List.insertionSort entryLe l).take n).map Prod.fst := by
  intro h
  obtain ⟨x, hxtake, hxfst⟩ := List.mem_map.mp h
  have hperm : (List.insertionSort entryLe l).Perm l :=
    List.perm_insertionSort entryLe l
  have hxs : x ∈ List.insertionSort entryLe l := List.mem_of_mem_take hxtake
  have hxl : x ∈ l := hperm.subset hxs
  have hxeq : x = (kKey, kEntry) :=
    List.inj_on_of_nodup_map hnd hxl hmem hxfst
  subst hxeq
  obtain ⟨t1, t2, ht⟩ := List.append_of_mem hxtake
  have hs : List.insertionSort entryLe l
      = t1 ++ (kKey, kEntry) ::
          (t2 ++ (List.insertionSort entryLe l).drop n) := by
    conv_lhs => rw [← List.take_append_drop n (List.insertionSort entryLe l)]
    rw [ht]
    simp
  have hsorted : List.Pairwise entryLe (List.insertionSort entryLe l) :=
    List.sorted_insertionSort entryLe l
  rw [hs] at hsorted
  obtain ⟨-, hsorted2, -⟩ := List.pairwise_append.mp hsorted
  obtain ⟨hK, -⟩ := List.pairwise_cons.mp hsorted2
  have hcP : List.countP
      (fun p => decide (p.2.access_count < kEntry.access_count))
      (List.insertionSort entryLe l)
      = List.countP
        (fun p => decide (p.2.access_count < kEntry.access_count)) l :=
    hperm.countP_eq _
  have hrest : List.countP
      (fun p => decide (p.2.access_count < kEntry.access_count))
      (t2 ++ (List.insertionSort entryLe l).drop n) = 0 := by
    rw [List.countP_eq_zero]
    intro b hb
    have hle := hK b hb
    unfold entryLe at hle
    dsimp only at hle
    simp only [decide_eq_true_iff]
    omega
  have hsplit : List.countP
      (fun p => decide (p.2.access_count < kEntry.access_count))
      (t1 ++ (kKey, kEntry) ::
        (t2 ++ (List.insertionSort entryLe l).drop n))
      = List.countP
        (fun p => decide (p.2.access_count < kEntry.access_count)) t1 := by
    rw [List.countP_append, List.countP_cons]
    simp only [hrest]
    simp
  have hlen1 : (List.take n (List.insertionSort entryLe l)).length
      = t1.length + 1 + t2.length := by
    rw [ht]
    simp
    omega
  have hlen2 : (List.take n (List.insertionSort entryLe l)).length ≤ n :=
    List.length_take_le n _
  have hle1 : List.countP
      (fun p => decide (p.2.access_count < kEntry.access_count)) t1
      ≤ t1.length := List.countP_le_length _
  rw [hs, hsplit] at hcP
  omega

theorem alSet_append_of_not_mem {V : Type} (key : String) (v : V)
    (l : List (String × V)) (h : key ∉ l.map Prod.fst) :
    alSet key v l = l ++ [(key, v)] := by
  induction l with
  | nil => rfl
  | cons p rest ih =>
    simp only [List.map_cons, List.mem_cons, not_or] at h
    simp [alSet, Ne.symm h.1, ih h.2]

/-- Claim C9: with the cache holding `max_size` distinct unexpired entries
and key `K` accessed strictly more often than at least
`max(1, max_size // 10)` other entries, a `set` of a new distinct key first
evicts exactly `max(1, current_size // 10)` entries — no surviving entry
sorts strictly below an evicted one in the `(access_count, timestamp)`
order — and `K`'s entry survives. -/
theorem lru_eviction_spares_hot_key {V : Type} (c : MemCache V) (now : ℚ)
    (ns kd : String) (v : V) (kKey : String) (kEntry : CacheEntry V)
    (hfull : c.cache.length = c.max_size)
    (hpos : 0 < c.max_size)
    (hfresh : ∀ p ∈ c.cache, is_expired p.2 now = false)
    (hnodup : (c.cache.map Prod.fst).Nodup)
    (hK : (kKey, kEntry) ∈ c.cache)
    (hcount : max 1 (c.max_size / 10) ≤ c.cache.countP
      (fun p => decide (p.2.access_count < kEntry.access_count)))
    (hnew : generate_key c.hash ns kd ∉ c.cache.map Prod.fst) :
    (kKey, kEntry) ∈ (memory_set c now ns kd v none).cache ∧
    (memory_set c now ns kd v none).cache.length
      = c.max_size - max 1 (c.max_size / 10) + 1 ∧
    ∀ x ∈ c.cache,
      x.1 ∉ (memory_set c now ns kd v none).cache.map Prod.fst →
      ∀ y ∈ c.cache,
        y.1 ∈ (memory_set c now ns kd v none).cache.map Prod.fst →
        ¬ entryLt y x := by
  rw [← hfull] at hcount
  set s := List.insertionSort entryLe c.cache with hs_def
  set vict := (s.take (max 1 (c.cache.length / 10))).map Prod.fst
    with hvict_def
  set filtered := c.cache.filter (fun p => p.1 ∉ vict) with hfiltered_def
  set newkey := generate_key c.hash ns kd with hnewkey_def
  have hperm : s.Perm c.cache := List.perm_insertionSort entryLe c.cache
  have hnodup_smap : (s.map Prod.fst).Nodup :=
    ((hperm.map Prod.fst).nodup_iff).mpr hnodup
  have hnodup_s : s.Nodup := List.Nodup.of_map Prod.fst hnodup_smap
  -- the sweep is the identity on unexpired entries
  have hclean : cleanup_expired now c.cache = c.cache := by
    unfold cleanup_expired
    rw [List.filter_eq_self]
    intro p hp
    rw [hfresh p hp]
    rfl
  have hc1 : (if c.cache.length % 100 = 0 then
      MemCache.mk (cleanup_expired now c.cache) c.max_size c.default_ttl
        c.hash else c) = c := by
    split
    · rw [hclean]
    · rfl
  have hevict : evict_lru c
      = MemCache.mk filtered c.max_size c.default_ttl c.hash := by
    unfold evict_lru
    rw [if_pos (le_of_eq hfull.symm)]
  have hms : (memory_set c now ns kd v none).cache
      = alSet newkey
          (CacheEntry.mk v now ((ttl_config ns).getD c.default_ttl) 0)
          filtered := by
    simp only [memory_set, hc1, hevict]
  have hvictim : kKey ∉ vict :=
    hot_key_not_in_victims c.cache kKey kEntry
      (max 1 (c.cache.length / 10)) hnodup hK hcount
  have hfilter : (kKey, kEntry) ∈ filtered := by
    rw [hfiltered_def]
    refine List.mem_filter.mpr ⟨hK, ?_⟩
    simpa using hvictim
  have hfkeys : filtered.map Prod.fst ⊆ c.cache.map Prod.fst :=
    List.map_subset Prod.fst (List.filter_subset' c.cache)
  have hnewf : newkey ∉ filtered.map Prod.fst := fun hcon => hnew (hfkeys hcon)
  have halset : alSet newkey
      (CacheEntry.mk v now ((ttl_config ns).getD c.default_ttl) 0) filtered
      = filtered ++
        [(newkey, CacheEntry.mk v now ((ttl_config ns).getD c.default_ttl)
          0)] :=
    alSet_append_of_not_mem _ _ _ hnewf
  have hcache_eq : (memory_set c now ns kd v none).cache
      = filtered ++
        [(newkey, CacheEntry.mk v now ((ttl_config ns).getD c.default_ttl)
          0)] := by
    rw [hms, halset]
  -- membership of take/drop against the victim keys
  have hdrop_nvict : ∀ p ∈ s.drop (max 1 (c.cache.length / 10)),
      p.1 ∉ vict := by
    intro p hp hcon
    obtain ⟨x, hxtake, hxfst⟩ := List.mem_map.mp hcon
    have hxs : x ∈ s := List.mem_of_mem_take hxtake
    have hps : p ∈ s := List.mem_of_mem_drop hp
    have hxp : x = p := List.inj_on_of_nodup_map hnodup_smap hxs hps hxfst
    subst hxp
    exact List.disjoint_take_drop hnodup_s le_rfl hxtake hp
  have hflen : filtered.length
      = c.cache.length - max 1 (c.cache.length / 10) := by
    have h1 : filtered.length
        = List.countP (fun p => decide (p.1 ∉ vict)) c.cache := by
      rw [hfiltered_def]
      exact (List.countP_eq_length_filter _ _).symm
    have h2 : List.countP (fun p => decide (p.1 ∉ vict)) c.cache
        = List.countP (fun p => decide (p.1 ∉ vict)) s :=
      (hperm.countP_eq _).symm
    have h3 : List.countP (fun p => decide (p.1 ∉ vict))
        (s.take (max 1 (c.cache.length / 10))) = 0 := by
      rw [List.countP_eq_zero]
      intro p hp
      simp only [decide_eq_true_iff, not_not]
      exact List.mem_map_of_mem Prod.fst hp
    have h4 : List.countP (fun p => decide (p.1 ∉ vict))
        (s.drop (max 1 (c.cache.length / 10)))
        = (s.drop (max 1 (c.cache.length / 10))).length := by
      rw [List.countP_eq_length]
      intro p hp
      simp only [decide_eq_true_iff]
      exact hdrop_nvict p hp
    have h5 : s = s.take (max 1 (c.cache.length / 10))
        ++ s.drop (max 1 (c.cache.length / 10)) :=
      (List.take_append_drop _ s).symm
    have h6 : List.countP (fun p => decide (p.1 ∉ vict)) s
        = (s.drop (max 1 (c.cache.length / 10))).length := by
      conv_lhs => rw [h5]
      rw [List.countP_append, h3, h4]
      omega
    have h7 : (s.drop (max 1 (c.cache.length / 10))).length
        = s.length - max 1 (c.cache.length / 10) := List.length_drop _ s
    have h8 : s.length = c.cache.length := hperm.length_eq
    omega
  refine ⟨?_, ?_, ?_⟩
  · rw [hcache_eq]
    exact List.mem_append_left _ hfilter
  · rw [hcache_eq, List.length_append, hflen, ← hfull]
    simp
  · intro x hx hxnot y hy hyin
    rw [hcache_eq] at hxnot hyin
    simp only [List.map_append, List.map_cons, List.map_nil,
      List.mem_append, List.mem_cons, List.not_mem_nil, or_false,
      not_or] at hxnot hyin
    -- the evicted entry x sits among the first N of the sorted list
    have hxvict : x.1 ∈ vict := by
      by_contra hxv
      exact hxnot.1 (List.mem_map_of_mem Prod.fst
        (List.mem_filter.mpr ⟨hx, by simpa using hxv⟩))
    have hxtake : x ∈ s.take (max 1 (c.cache.length / 10)) := by
      obtain ⟨xx, hxxtake, hxxfst⟩ := List.mem_map.mp hxvict
      have hxxc : xx ∈ c.cache := hperm.subset (List.mem_of_mem_take hxxtake)
      have : xx = x := List.inj_on_of_nodup_map hnodup hxxc hx hxxfst
      subst this
      exact hxxtake
    -- the surviving entry y sits in the dropped suffix
    have hyfilter : y ∈ filtered := by
      rcases hyin with hyf | hynew
      · obtain ⟨y', hy', hy'fst⟩ := List.mem_map.mp hyf
        have hy'c : y' ∈ c.cache := List.filter_subset' c.cache hy'
        have : y' = y := List.inj_on_of_nodup_map hnodup hy'c hy hy'fst
        subst this
        exact hy'
      · exact absurd (hynew ▸ List.mem_map_of_mem Prod.fst hy) hnew
    have hynvict : y.1 ∉ vict := by
      have := (List.mem_filter.mp hyfilter).2
      simpa using this
    have hydrop : y ∈ s.drop (max 1 (c.cache.length / 10)) := by
      have hys : y ∈ s := hperm.mem_iff.mpr hy
      have h5 : s = s.take (max 1 (c.cache.length / 10))
          ++ s.drop (max 1 (c.cache.length / 10)) :=
        (List.take_append_drop _ s).symm
      rw [h5] at hys
      rcases List.mem_append.mp hys with hytake | hyd
      · exact absurd (List.mem_map_of_mem Prod.fst hytake) hynvict
      · exact hyd
    have hsorted : List.Pairwise entryLe s :=
      List.sorted_insertionSort entryLe c.cache
    have h5 : s = s.take (max 1 (c.cache.length / 10))
        ++ s.drop (max 1 (c.cache.length / 10)) :=
      (List.take_append_drop _ s).symm
    rw [h5] at hsorted
    obtain ⟨-, -, hrel⟩ := List.pairwise_append.mp hsorted
    exact entryLe_asymm (hrel x hxtake y hydrop)

/-- Claim C9 witness: on the capacity-3 cache where `K` was accessed five
times and `a`, `b` never, a `set` of a new key evicts exactly one minimal
entry and `K` survives. -/
theorem lru_eviction_spares_hot_key_witness :
    ("K", CacheEntry.mk 2 0 100 5)
      ∈ (memory_set cacheFull3 10 "query_result" "x" 9 none).cache ∧
    (memory_set cacheFull3 10 "query_result" "x" 9 none).cache.length
      = cacheFull3.max_size - max 1 (cacheFull3.max_size / 10) + 1 ∧
    ∀ x ∈ cacheFull3.cache,
      x.1 ∉ (memory_set cacheFull3 10 "query_result" "x" 9
        none).cache.map Prod.fst →
      ∀ y ∈ cacheFull3.cache,
        y.1 ∈ (memory_set cacheFull3 10 "query_result" "x" 9
          none).cache.map Prod.fst →
        ¬ entryLt y x :=
  lru_eviction_spares_hot_key cacheFull3 10 "query_result" "x" 9 "K"
    (CacheEntry.mk 2 0 100 5) rfl (by decide)
    (by
      intro p hp
      simp only [cacheFull3, List.mem_cons, List.not_mem_nil, or_false] at hp
      rcases hp with rfl | rfl | rfl <;>
        simp [is_expired, decide_eq_false_iff_not] <;> norm_num)
    (by decide) (by decide) (by decide) (by decide)
